import Mathlib

/-!
Verification of the hpc-coding-conventions tooling library.

This file gives a shallow embedding, in Lean 4, of the pure logic of the
Python sources `cpp/lib.py` and `cpp/cmake/cpplib.py`:

* the include/exclude file filters (`make_file_filter` in `cpplib.py`,
  `Tool.accepts_file` in `lib.py`) — regular-expression matching is performed
  by the external `re` module, so a compiled pattern's `match` method is
  embedded as an abstract predicate on paths;
* the batching helper `chunkify` and the batch runner `Tool.run`
  (the subprocess exit status of each external invocation is embedded as an
  abstract oracle on the invoked file batch);
* the clang-tidy check-list merge `merge_clang_tidy_checks`, together with a
  faithful model of Python's `fnmatch.fnmatch` (POSIX case: `os.path.normcase`
  is the identity);
* the generic YAML merge `merge_yaml_files` over an embedded YAML value type
  (Python dictionaries are insertion-ordered association lists);
* the configuration-file preparation `Tool.prepare_config` (the file-system
  facts it branches on are embedded as an explicit environment record);
* the executable-resolution routine `ExecutableTool.find_tool_in_path`
  (the pkg_resources requirement test is embedded as an abstract predicate
  on version strings; Python's stable `sorted` is embedded as a stable
  insertion sort on the version-string key).
-/

/-! ## File filters (cpp/cmake/cpplib.py `make_file_filter`, cpp/lib.py `Tool.accepts_file`) -/

/-- Embedding of `make_file_filter(excludes_re, files_re)` from
`cpp/cmake/cpplib.py`.  A compiled regular expression's `match` method is an
abstract predicate `String → Bool`.  The returned predicate reports `true`
when the file must be EXCLUDED (as in the source). -/
def make_file_filter (excludes_re files_re : List (String → Bool)) : String → Bool :=
  fun cpp_file =>
    if excludes_re.any (fun exclude_re => exclude_re cpp_file) then true
    else if files_re.any (fun file_re => file_re cpp_file) then false
    else true

/-- Embedding of `Tool.accepts_file` from `cpp/lib.py`: iterate over the
`exclude` `match` patterns (any match returns `False`), then over the
`include` `match` patterns (any match returns `True`), else `False`. -/
def Tool.accepts_file (exclude_match include_match : List (String → Bool))
    (file : String) : Bool :=
  if exclude_match.any (fun regexp => regexp file) then false
  else if include_match.any (fun regexp => regexp file) then true
  else false

/-! ## Batching (cpp/lib.py `chunkify`, `Tool.run`, `Tool._run_chunk`) -/

/-- Embedding of `chunkify(seq, chunk_size)` from `cpp/lib.py`:
`for i in range(0, len(seq), chunk_size): yield seq[i : i + chunk_size]`.
In Python, `range` with step `0` raises `ValueError`; the function is only
ever called with the positive `cli_max_num_files`, and the model returns `[]`
for chunk size `0`. -/
def chunkify : List α → Nat → List (List α)
  | _, 0 => []
  | [], _ + 1 => []
  | x :: xs, k + 1 => (x :: xs.take k) :: chunkify (xs.drop k) (k + 1)
termination_by seq _ => seq.length
decreasing_by simp [List.length_drop]; omega

/-- Embedding of `Tool._run_chunk` from `cpp/lib.py`: the external tool is
invoked once on the chunk; `exec_status` is the exit status of that
subprocess call; the function returns `1 if status != 0 else 0`. -/
def run_chunk (exec_status : List String → Int) (files : List String) : Nat :=
  if exec_status files != 0 then 1 else 0

/-- Embedding of `Tool.run` from `cpp/lib.py`: split the files in chunks of at
most `cli_max_num_files` and accumulate the per-chunk failure counts. -/
def Tool.run (exec_status : List String → Int) (cli_max_num_files : Nat)
    (files : List String) : Nat :=
  (chunkify files cli_max_num_files).foldl
    (fun num_errors files_chunk => num_errors + run_chunk exec_status files_chunk) 0

/-! ## Claims C1 and C2: exclusion precedence and default-deny -/

/-- Claim C1: for every list of exclude patterns, every list of include
patterns and every file path, if the path matches at least one exclude
pattern then the predicate built by `make_file_filter` reports the file as
excluded (`true`) and `Tool.accepts_file` returns `false`, regardless of the
include patterns. -/
theorem C1_exclude_takes_precedence
    (excludes_re files_re : List (String → Bool)) (file : String)
    (hex : ∃ r ∈ excludes_re, r file = true) :
    make_file_filter excludes_re files_re file = true ∧
      Tool.accepts_file excludes_re files_re file = false := by
  have hany : excludes_re.any (fun r => r file) = true := by
    rcases hex with ⟨r, hr, hrf⟩
    exact List.any_eq_true.mpr ⟨r, hr, hrf⟩
  constructor
  · simp [make_file_filter, hany]
  · simp [Tool.accepts_file, hany]

/-- Witness for claim C1 at a concrete input: one exclude pattern matching
the path, one include pattern also matching it. -/
theorem C1_exclude_takes_precedence_witness :
    (∃ r ∈ [fun s => s == "src/a.cpp"], r "src/a.cpp" = true) ∧
      make_file_filter [fun s => s == "src/a.cpp"] [fun _ => true] "src/a.cpp" = true ∧
      Tool.accepts_file [fun s => s == "src/a.cpp"] [fun _ => true] "src/a.cpp" = false := by
  refine ⟨⟨fun s => s == "src/a.cpp", by simp, by simp⟩, ?_⟩
  exact C1_exclude_takes_precedence _ _ _ ⟨fun s => s == "src/a.cpp", by simp, by simp⟩

/-- Claim C2: for every file path and every list of exclude patterns
(including the empty list), if the path matches none of the include patterns
— in particular when the include list is empty — the `make_file_filter`
predicate reports the file as excluded and `Tool.accepts_file` returns
`false` (inclusion is default-deny). -/
theorem C2_default_deny
    (excludes_re files_re : List (String → Bool)) (file : String)
    (hinc : ∀ r ∈ files_re, r file = false) :
    make_file_filter excludes_re files_re file = true ∧
      Tool.accepts_file excludes_re files_re file = false := by
  have hany : files_re.any (fun r => r file) = false := by
    apply List.any_eq_false.mpr
    intro r hr
    simp [hinc r hr]
  constructor
  · by_cases hex : excludes_re.any (fun r => r file) = true
    · simp [make_file_filter, hex]
    · simp at hex
      simp [make_file_filter, hany]
  · by_cases hex : excludes_re.any (fun r => r file) = true
    · simp [Tool.accepts_file, hex]
    · simp at hex
      simp [Tool.accepts_file, hany]

/-- Witness for claim C2 at a concrete input: empty exclude list and one
include pattern that does not match the path. -/
theorem C2_default_deny_witness :
    (∀ r ∈ [fun s => s == "src/a.cpp"], r "README.md" = false) ∧
      make_file_filter [] [fun s => s == "src/a.cpp"] "README.md" = true ∧
      Tool.accepts_file [] [fun s => s == "src/a.cpp"] "README.md" = false := by
  refine ⟨by simp, ?_⟩
  exact C2_default_deny [] _ _ (by simp)

/-! ## Claims C10, C6 and C5: batching and failure counting -/

/-- Claim C10: for every sequence and every chunk size at least 1, the
concatenation, in order, of the chunks yielded by `chunkify` is the original
sequence, and every yielded chunk is non-empty: batching neither drops,
duplicates nor reorders any file. -/
theorem C10_chunkify_partition {α : Type _} (seq : List α) (chunk_size : Nat)
    (hpos : 1 ≤ chunk_size) :
    (chunkify seq chunk_size).flatten = seq ∧
      ∀ c ∈ chunkify seq chunk_size, c ≠ [] := by
  induction seq, chunk_size using chunkify.induct with
  | case1 seq =>
    exact absurd hpos (by omega)
  | case2 k =>
    simp [chunkify]
  | case3 x xs k ih =>
    obtain ⟨ih1, ih2⟩ := ih (by omega)
    rw [chunkify]
    constructor
    · simp [ih1]
    · intro c hc
      rcases List.mem_cons.mp hc with h | h
      · subst h; simp
      · exact ih2 c h

/-- Witness for claim C10 at a concrete input: three files in chunks of two. -/
theorem C10_chunkify_partition_witness :
    1 ≤ 2 ∧ ((chunkify ([1, 2, 3] : List Nat) 2).flatten = [1, 2, 3] ∧
      ∀ c ∈ chunkify ([1, 2, 3] : List Nat) 2, c ≠ []) :=
  ⟨by omega, C10_chunkify_partition [1, 2, 3] 2 (by omega)⟩

/-- Claim C6: `Tool.run` invokes the external tool on the batches produced by
`chunkify` (see the definition of `Tool.run`), and for every sequence and
every chunk size at least 1, every chunk yielded by `chunkify` has length at
most the chunk size, so every batch holds at most `cli_max_num_files` files. -/
theorem C6_chunk_size_bounded {α : Type _} (seq : List α) (chunk_size : Nat)
    (hpos : 1 ≤ chunk_size) :
    ∀ c ∈ chunkify seq chunk_size, c.length ≤ chunk_size := by
  induction seq, chunk_size using chunkify.induct with
  | case1 seq =>
    exact absurd hpos (by omega)
  | case2 k =>
    simp [chunkify]
  | case3 x xs k ih =>
    intro c hc
    rw [chunkify] at hc
    rcases List.mem_cons.mp hc with h | h
    · subst h
      simp only [List.length_cons, List.length_take]
      omega
    · exact ih (by omega) c h

/-- Witness for claim C6 at a concrete input: five files in chunks of two. -/
theorem C6_chunk_size_bounded_witness :
    1 ≤ 2 ∧ ∀ c ∈ chunkify ([1, 2, 3, 4, 5] : List Nat) 2, c.length ≤ 2 :=
  ⟨by omega, C6_chunk_size_bounded [1, 2, 3, 4, 5] 2 (by omega)⟩

/-- Accumulating the per-chunk failure indicators from `a` counts the chunks
whose exit status is non-zero. -/
theorem run_foldl_counts (exec_status : List String → Int)
    (l : List (List String)) (a : Nat) :
    l.foldl (fun num_errors c => num_errors + run_chunk exec_status c) a
      = a + l.countP (fun c => exec_status c != 0) := by
  induction l generalizing a with
  | nil => simp
  | cons c cs ih =>
    simp only [List.foldl_cons, List.countP_cons]
    rw [ih]
    unfold run_chunk
    by_cases h : exec_status c = 0
    · simp [h]
    · simp [h]
      omega

/-- Claim C5: for every sequence of files and every assignment of exit
statuses to the external invocations, `Tool.run` returns exactly the number
of batches whose subprocess exit status is non-zero (each failing batch
counts as one regardless of its size); in particular it returns 0 exactly
when every batch succeeds, and the result is non-zero exactly when some
batch failed. -/
theorem C5_run_counts_failing_batches (exec_status : List String → Int)
    (cli_max_num_files : Nat) (files : List String) :
    Tool.run exec_status cli_max_num_files files
        = ((chunkify files cli_max_num_files).filter
            (fun c => exec_status c != 0)).length ∧
      (Tool.run exec_status cli_max_num_files files = 0 ↔
        ∀ c ∈ chunkify files cli_max_num_files, exec_status c = 0) ∧
      (Tool.run exec_status cli_max_num_files files ≠ 0 ↔
        ∃ c ∈ chunkify files cli_max_num_files, exec_status c ≠ 0) := by
  have hcount : Tool.run exec_status cli_max_num_files files
      = (chunkify files cli_max_num_files).countP (fun c => exec_status c != 0) := by
    simpa using run_foldl_counts exec_status (chunkify files cli_max_num_files) 0
  refine ⟨?_, ?_, ?_⟩
  · rw [hcount, List.countP_eq_length_filter]
  · rw [hcount, List.countP_eq_zero]
    constructor
    · intro h c hc
      have := h c hc
      simpa using this
    · intro h c hc
      simp [h c hc]
  · rw [Ne, hcount, List.countP_eq_zero]
    constructor
    · intro h
      by_contra hcon
      push_neg at hcon
      apply h
      intro c hc
      simp [hcon c hc]
    · rintro ⟨c, hc, hne⟩ hall
      exact absurd (by simpa using hall c hc) hne

/-! ## Python `fnmatch.fnmatch` (used by `merge_clang_tidy_checks`)

On POSIX, `os.path.normcase` is the identity, so `fnmatch.fnmatch(name, pat)`
matches the whole `name` against the shell pattern `pat`: `*` matches any
(possibly empty) sequence, `?` matches one character, `[seq]` matches one
character of the set (with `!` negation when first, a leading `]` taken
literally, and `a-b` ranges), and an unterminated `[` is a literal. -/

/-- One token of a translated shell pattern. A character class keeps its
negation flag and its list of ranges (a single character `c` is the range
`(c, c)`). -/
inductive GlobTok where
  | star : GlobTok
  | anyChar : GlobTok
  | lit : Char → GlobTok
  | cls : Bool → List (Char × Char) → GlobTok
deriving DecidableEq

/-- Scan up to the first unconsumed `]`; return the characters before it and
the remainder after it, or `none` when the class is unterminated. -/
def findCloseBracket : List Char → Option (List Char × List Char)
  | [] => none
  | ']' :: rest => some ([], rest)
  | c :: rest =>
    match findCloseBracket rest with
    | none => none
    | some (stuff, after) => some (c :: stuff, after)

/-- Scan the body of a character class starting just after `[`, following
`fnmatch.translate`: a closing `]` is searched from one position further when
the body starts with `!`, and one more when the next character is `]`
(so `[]]` matches a literal `]`). -/
def scanClassBody (s : List Char) : Option (List Char × List Char) :=
  match s with
  | '!' :: ']' :: rest =>
    match findCloseBracket rest with
    | none => none
    | some (stuff, after) => some ('!' :: ']' :: stuff, after)
  | '!' :: rest =>
    match findCloseBracket rest with
    | none => none
    | some (stuff, after) => some ('!' :: stuff, after)
  | ']' :: rest =>
    match findCloseBracket rest with
    | none => none
    | some (stuff, after) => some (']' :: stuff, after)
  | rest => findCloseBracket rest

/-- Parse the inside of a character class into ranges: `a-b` is a range when
a character follows the dash, and a dash first or last is literal. -/
def parseClassRanges : List Char → List (Char × Char)
  | [] => []
  | a :: '-' :: b :: rest => (a, b) :: parseClassRanges rest
  | a :: rest => (a, a) :: parseClassRanges rest

/-- Tokenize a shell pattern; the fuel is an upper bound on the pattern
length (every step consumes at least one character). -/
def globTokensF : Nat → List Char → List GlobTok
  | 0, _ => []
  | _ + 1, [] => []
  | fuel + 1, '*' :: rest => GlobTok.star :: globTokensF fuel rest
  | fuel + 1, '?' :: rest => GlobTok.anyChar :: globTokensF fuel rest
  | fuel + 1, '[' :: rest =>
    match scanClassBody rest with
    | none => GlobTok.lit '[' :: globTokensF fuel rest
    | some (stuff, after) =>
      (match stuff with
       | '!' :: body => GlobTok.cls true (parseClassRanges body)
       | body => GlobTok.cls false (parseClassRanges body)) :: globTokensF fuel after
  | fuel + 1, c :: rest => GlobTok.lit c :: globTokensF fuel rest

/-- Tokenize a shell pattern. -/
def globTokens (pat : List Char) : List GlobTok :=
  globTokensF pat.length pat

/-- Whether a single non-star token matches one character. -/
def matchTokChar : GlobTok → Char → Bool
  | GlobTok.star, _ => true
  | GlobTok.anyChar, _ => true
  | GlobTok.lit l, c => l == c
  | GlobTok.cls neg ranges, c =>
    if neg then !(ranges.any fun r => r.1 ≤ c && c ≤ r.2)
    else ranges.any fun r => r.1 ≤ c && c ≤ r.2

/-- Match a token list against a name; anchored at both ends as Python's
`re.match(..., name)` with the `\Z`-terminated translated pattern. The fuel
is an upper bound on (token count + name length + 1): every recursive call
decreases that sum. -/
def tokMatchF : Nat → List GlobTok → List Char → Bool
  | 0, _, _ => false
  | _ + 1, [], s => s.isEmpty
  | fuel + 1, GlobTok.star :: ts, [] => tokMatchF fuel ts []
  | fuel + 1, GlobTok.star :: ts, c :: cs =>
    tokMatchF fuel ts (c :: cs) || tokMatchF fuel (GlobTok.star :: ts) cs
  | _ + 1, _ :: _, [] => false
  | fuel + 1, t :: ts, c :: cs => matchTokChar t c && tokMatchF fuel ts cs

/-- Embedding of `fnmatch.fnmatch(name, pat)` from Python's standard library
as used on POSIX by `merge_clang_tidy_checks`, on character lists. -/
def fnmatchL (name pat : List Char) : Bool :=
  let ts := globTokens pat
  tokMatchF (ts.length + name.length + 1) ts name

/-! ## clang-tidy check-list merge (cpp/lib.py `ClangTidy.merge_clang_tidy_checks`,
cpp/cmake/cpplib.py `merge_clang_tidy_checks`) -/

/-- Embedding of Python's `str.split(",")`: split at every comma, keeping
empty pieces (`"".split(",") == [""]`). -/
def splitOnComma : List Char → List (List Char)
  | [] => [[]]
  | ',' :: rest => [] :: splitOnComma rest
  | c :: rest =>
    match splitOnComma rest with
    | [] => [[c]]
    | piece :: pieces => (c :: piece) :: pieces

/-- Remove leading whitespace, as the left half of Python's `str.strip()`. -/
def pyStripLeft : List Char → List Char
  | [] => []
  | c :: rest => if c.isWhitespace then pyStripLeft rest else c :: rest

/-- Embedding of Python's `str.strip()`: drop whitespace on both ends. -/
def pyStrip (s : List Char) : List Char :=
  pyStripLeft (pyStripLeft s.reverse).reverse

/-- Embedding of Python's `",".join(...)` on character lists. -/
def intercalateComma : List (List Char) → List Char
  | [] => []
  | [piece] => piece
  | piece :: pieces => piece ++ ',' :: intercalateComma pieces

/-- Embedding of Python's `str.startswith("-")` on character lists. -/
def startsWithDash : List Char → Bool
  | '-' :: _ => true
  | _ => false

/-- The per-entry body of the `for new_check in new_checks` loop of
`merge_clang_tidy_checks`: a delta entry starting with `-` removes the origin
entries matching its bare name or matching the negated entry itself, a
positive delta entry removes the origin entries matching its negation or
matching the entry itself, and the delta entry is then appended. -/
def merge_step (orig_checks : List (List Char)) (new_check : List Char) :
    List (List Char) :=
  if startsWithDash new_check then
    let name := new_check.drop 1
    let orig_checks := orig_checks.filter fun check => !(fnmatchL check name)
    let orig_checks := orig_checks.filter fun check => !(fnmatchL check new_check)
    orig_checks ++ [new_check]
  else
    let orig_checks := orig_checks.filter fun check => !(fnmatchL check ('-' :: new_check))
    let orig_checks := orig_checks.filter fun check => !(fnmatchL check new_check)
    orig_checks ++ [new_check]

/-- Split a `Checks` string at commas and strip each entry, as
`merge_clang_tidy_checks` does on both of its arguments. -/
def parseChecksL (s : List Char) : List (List Char) :=
  (splitOnComma s).map pyStrip

/-- Embedding of `ClangTidy.merge_clang_tidy_checks(orig_checks, new_checks)`
from `cpp/lib.py` (identical to `merge_clang_tidy_checks` in
`cpp/cmake/cpplib.py`): `None` origin returns the delta unchanged; otherwise
both comma-separated lists are split and stripped, the delta entries are
folded over the origin list with `merge_step`, and the result is re-joined
with commas. -/
def merge_clang_tidy_checks (orig_checks : Option String) (new_checks : String) :
    String :=
  match orig_checks with
  | none => new_checks
  | some orig =>
    String.mk (intercalateComma
      ((parseChecksL new_checks.data).foldl merge_step (parseChecksL orig.data)))

/-- The combined keep-predicate of the two successive filters that
`merge_step` applies for the delta entry `new_check`. -/
def keep_check (new_check check : List Char) : Bool :=
  if startsWithDash new_check then
    !(fnmatchL check (new_check.drop 1)) && !(fnmatchL check new_check)
  else
    !(fnmatchL check ('-' :: new_check)) && !(fnmatchL check new_check)

/-- The delta entries that survive the removals performed by the later delta
entries: processing delta entries left to right, an appended entry is kept
exactly when every later delta entry's keep-predicate holds of it. -/
def merge_residue : List (List Char) → List (List Char)
  | [] => []
  | d :: ds =>
    if ds.all (fun e => keep_check e d) then d :: merge_residue ds
    else merge_residue ds

/-- The two successive filters of `merge_step` collapse to one filter by the
combined keep-predicate, with the delta entry appended after the removals. -/
theorem merge_step_eq (orig : List (List Char)) (new_check : List Char) :
    merge_step orig new_check
      = orig.filter (fun check => keep_check new_check check) ++ [new_check] := by
  by_cases h : startsWithDash new_check
  · simp only [merge_step, keep_check, h, if_true, List.filter_filter]
    congr 1
    apply List.filter_congr
    intro c _
    rw [Bool.and_comm]
  · simp only [merge_step, keep_check, h, if_false, Bool.false_eq_true, List.filter_filter]
    congr 1
    apply List.filter_congr
    intro c _
    rw [Bool.and_comm]

/-- Closed form of the delta fold of `merge_clang_tidy_checks`: the surviving
origin entries are those kept by every delta entry, in their original order,
followed by the delta entries that survive the later delta entries'
removals, in their original order. -/
theorem merge_foldl_closed_form (delta : List (List Char)) :
    ∀ orig : List (List Char),
      delta.foldl merge_step orig
        = orig.filter (fun check => delta.all fun new_check => keep_check new_check check)
            ++ merge_residue delta := by
  induction delta with
  | nil =>
    intro orig
    simp [merge_residue]
  | cons d ds ih =>
    intro orig
    rw [List.foldl_cons, ih (merge_step orig d), merge_step_eq, List.filter_append,
      List.filter_filter, List.append_assoc]
    congr 1
    · apply List.filter_congr
      intro c _
      simp [List.all_cons, Bool.and_comm]
    · by_cases hd : ds.all (fun e => keep_check e d) = true
      · simp [merge_residue, List.filter_cons, hd]
      · have hd' : (ds.all fun e => keep_check e d) = false := by simpa using hd
        simp [merge_residue, List.filter_cons, hd']

/-- The surviving delta entries keep their original relative order: the
residue is a sublist of the delta list. -/
theorem merge_residue_sublist (delta : List (List Char)) :
    List.Sublist (merge_residue delta) delta := by
  induction delta with
  | nil => simp [merge_residue]
  | cons d ds ih =>
    by_cases hd : ds.all (fun e => keep_check e d) = true
    · simpa [merge_residue, hd] using List.Sublist.cons₂ d ih
    · have hd' : (ds.all fun e => keep_check e d) = false := by simpa using hd
      simpa [merge_residue, hd'] using List.Sublist.cons d ih

/-- Claim C4: for every non-`None` origin check list and every delta check
list, `merge_clang_tidy_checks` returns exactly: the origin entries kept by
every delta entry's removal predicate (a negating delta entry removes the
origin entries its bare name or its negated form matches by wildcard, a
positive delta entry removes the origin entries matched by its negation or
by itself — see `keep_check`), in their original order, followed by the
delta entries surviving the later delta entries' removals, appended in their
original relative order (`merge_residue` is a sublist of the delta list). -/
theorem C4_merge_clang_tidy_checks_general (orig_checks new_checks : String) :
    merge_clang_tidy_checks (some orig_checks) new_checks
        = String.mk (intercalateComma
            ((parseChecksL orig_checks.data).filter
                (fun check => (parseChecksL new_checks.data).all
                  fun new_check => keep_check new_check check)
              ++ merge_residue (parseChecksL new_checks.data)))
      ∧ List.Sublist (merge_residue (parseChecksL new_checks.data))
          (parseChecksL new_checks.data) := by
  constructor
  · show String.mk _ = String.mk _
    rw [merge_foldl_closed_form]
  · exact merge_residue_sublist _

/-- Pairwise wildcard-disjointness of a check list: no entry is removed by
the removal predicate of another entry of the list. -/
def checks_disjoint : List (List Char) → Bool
  | [] => true
  | c :: cs => cs.all (fun d => keep_check c d && keep_check d c) && checks_disjoint cs

/-- On a pairwise wildcard-disjoint delta list, no delta entry removes an
earlier delta entry, so all delta entries survive in order. -/
theorem merge_residue_of_disjoint (L : List (List Char))
    (h : checks_disjoint L = true) : merge_residue L = L := by
  induction L with
  | nil => simp [merge_residue]
  | cons c cs ih =>
    simp only [checks_disjoint, Bool.and_eq_true, List.all_eq_true] at h
    obtain ⟨h1, h2⟩ := h
    have hcond : cs.all (fun e => keep_check e c) = true := by
      apply List.all_eq_true.mpr
      intro e he
      exact (h1 e he).2
    simp [merge_residue, hcond, ih h2]

/-- Claim C3: the clang-tidy check merge satisfies the four concrete
equations of `dev/test_lib.py`, and merging a comma-separated check list
with itself is the identity whenever the list is in normal form (splitting
the joined string gives back the entries), every entry would remove its own
duplicate (`keep_check c c = false`, true of ordinary check patterns), and
the entries are pairwise wildcard-disjoint. -/
theorem C3_merge_equations_and_self_merge (L : List (List Char))
    (hparse : parseChecksL (intercalateComma L) = L)
    (hself : ∀ c ∈ L, keep_check c c = false)
    (hdisj : checks_disjoint L = true) :
    merge_clang_tidy_checks (some "foo-*,bar-pika,-bar-foo") "-bar-pika"
        = "foo-*,-bar-foo,-bar-pika" ∧
      merge_clang_tidy_checks (some "foo-*,bar-pika,-bar-foo") "-bar-*"
        = "foo-*,-bar-*" ∧
      merge_clang_tidy_checks (some "foo-*,bar-pika,-bar-foo") "bar-foo"
        = "foo-*,bar-pika,bar-foo" ∧
      merge_clang_tidy_checks (some "foo-*,bar-pika,-bar-foo") "bar-pika"
        = "foo-*,-bar-foo,bar-pika" ∧
      merge_clang_tidy_checks (some (String.mk (intercalateComma L)))
          (String.mk (intercalateComma L))
        = String.mk (intercalateComma L) := by
  refine ⟨by decide, by decide, by decide, by decide, ?_⟩
  have hdata : (String.mk (intercalateComma L)).data = intercalateComma L := rfl
  simp only [merge_clang_tidy_checks, hdata, hparse]
  rw [merge_foldl_closed_form]
  have hfilter : L.filter (fun check => L.all fun new_check => keep_check new_check check)
      = [] := by
    apply List.filter_eq_nil_iff.mpr
    intro c hc hall
    have := List.all_eq_true.mp hall c hc
    rw [hself c hc] at this
    exact Bool.false_ne_true this
  rw [hfilter, merge_residue_of_disjoint L hdisj, List.nil_append]

/-- Witness for claim C3 at a concrete input: the two-entry list
`foo-*,bar-pika`, whose entries are in normal form, self-matching and
pairwise wildcard-disjoint. -/
theorem C3_merge_equations_and_self_merge_witness :
    (parseChecksL (intercalateComma ["foo-*".data, "bar-pika".data])
        = ["foo-*".data, "bar-pika".data] ∧
      (∀ c ∈ [("foo-*".data : List Char), "bar-pika".data], keep_check c c = false) ∧
      checks_disjoint ["foo-*".data, "bar-pika".data] = true) ∧
    (merge_clang_tidy_checks (some "foo-*,bar-pika,-bar-foo") "-bar-pika"
        = "foo-*,-bar-foo,-bar-pika" ∧
      merge_clang_tidy_checks (some "foo-*,bar-pika,-bar-foo") "-bar-*"
        = "foo-*,-bar-*" ∧
      merge_clang_tidy_checks (some "foo-*,bar-pika,-bar-foo") "bar-foo"
        = "foo-*,bar-pika,bar-foo" ∧
      merge_clang_tidy_checks (some "foo-*,bar-pika,-bar-foo") "bar-pika"
        = "foo-*,-bar-foo,bar-pika" ∧
      merge_clang_tidy_checks
          (some (String.mk (intercalateComma ["foo-*".data, "bar-pika".data])))
          (String.mk (intercalateComma ["foo-*".data, "bar-pika".data]))
        = String.mk (intercalateComma ["foo-*".data, "bar-pika".data])) :=
  ⟨⟨by decide, by decide, by decide⟩,
    C3_merge_equations_and_self_merge ["foo-*".data, "bar-pika".data]
      (by decide) (by decide) (by decide)⟩

/-! ## YAML merge (cpp/lib.py `merge_yaml_files`, cpp/cmake/cpplib.py `do_merge_yaml`) -/

/-- Embedded YAML value as loaded by `yaml.safe_load`: a top-level value is a
mapping (`dict`, an insertion-ordered association list in Python), or any
other Python value (string, list, number, boolean, `None`). -/
inductive PyObj where
  | dict : List (String × PyObj) → PyObj
  | str : String → PyObj
  | list : List PyObj → PyObj
  | int : Int → PyObj
  | bool : Bool → PyObj
  | none_ : PyObj

/-- Whether a loaded YAML value is a mapping (`isinstance(content, dict)`). -/
def PyObj.isDict : PyObj → Bool
  | PyObj.dict _ => true
  | _ => false

/-- Python `dict.get(key)` on an insertion-ordered association list. -/
def dictGet (data : List (String × PyObj)) (key : String) : Option PyObj :=
  match data.find? (fun kv => kv.1 == key) with
  | some kv => some kv.2
  | none => none

/-- Python `data[key] = value` on an insertion-ordered association list: an
existing key keeps its position and gets the new value, a new key is
appended. -/
def dictSet : List (String × PyObj) → String → PyObj → List (String × PyObj)
  | [], key, value => [(key, value)]
  | kv :: rest, key, value =>
    if kv.1 == key then (kv.1, value) :: rest
    else kv :: dictSet rest key value

/-- The body of the `for key, value in content.items()` loop of
`merge_yaml_files`: apply the registered transformer for the key if there is
one, else let the new value replace the old. -/
def merge_yaml_entry (transformers : String → Option (Option PyObj → PyObj → PyObj))
    (data : List (String × PyObj)) (kv : String × PyObj) :
    List (String × PyObj) :=
  match transformers kv.1 with
  | some transform_func => dictSet data kv.1 (transform_func (dictGet data kv.1) kv.2)
  | none => dictSet data kv.1 kv.2

/-- The body of the `for file in ins` loop of `merge_yaml_files`: a non-dict
top-level value reports an error, flips the success flag and skips the file
(`continue`); a dict merges its entries into the accumulated data. -/
def merge_yaml_file (transformers : String → Option (Option PyObj → PyObj → PyObj))
    (acc : Bool × List (String × PyObj)) (content : PyObj) :
    Bool × List (String × PyObj) :=
  match content with
  | PyObj.dict entries => (acc.1, entries.foldl (merge_yaml_entry transformers) acc.2)
  | _ => (false, acc.2)

/-- Embedding of `merge_yaml_files(*files, transformers=...)` from
`cpp/lib.py` (identical to `do_merge_yaml` in `cpp/cmake/cpplib.py`).
The file system is abstracted away: `outdated` is the modification-time
staleness test of the output against the inputs, `ins` holds the parsed
top-level YAML value of each input file, and the second component of the
result is the data written to the output file (`none` when nothing is
written). The returned flag is the `succeeded` result; the Python function
raises no exception on non-dict input (it logs and continues), which the
model reflects by being total. -/
def merge_yaml_files (outdated : Bool) (ins : List PyObj)
    (transformers : String → Option (Option PyObj → PyObj → PyObj)) :
    Bool × Option (List (String × PyObj)) :=
  if outdated then
    let result := ins.foldl (merge_yaml_file transformers) (true, [])
    (result.1, if result.1 then some result.2 else none)
  else
    (true, none)

/-- The success flag of the input fold is the conjunction of the incoming
flag and every input being a dict. -/
theorem merge_yaml_fold_flag (transformers : String → Option (Option PyObj → PyObj → PyObj))
    (ins : List PyObj) :
    ∀ acc : Bool × List (String × PyObj),
      (ins.foldl (merge_yaml_file transformers) acc).1
        = (acc.1 && ins.all PyObj.isDict) := by
  induction ins with
  | nil =>
    intro acc
    simp
  | cons content rest ih =>
    intro acc
    rw [List.foldl_cons, ih]
    match content with
    | PyObj.dict entries => simp [merge_yaml_file, PyObj.isDict]
    | PyObj.str s => simp [merge_yaml_file, PyObj.isDict]
    | PyObj.list l => simp [merge_yaml_file, PyObj.isDict]
    | PyObj.int n => simp [merge_yaml_file, PyObj.isDict]
    | PyObj.bool b => simp [merge_yaml_file, PyObj.isDict]
    | PyObj.none_ => simp [merge_yaml_file, PyObj.isDict]

/-- Claim C8: for every stale (outdated) YAML merge, if the top-level value
of some input file is not a mapping, `merge_yaml_files` raises no exception
(the model is total), returns a falsy success flag, and does not write the
output file. -/
theorem C8_merge_yaml_non_dict_fails (ins : List PyObj)
    (transformers : String → Option (Option PyObj → PyObj → PyObj))
    (hbad : ∃ content ∈ ins, content.isDict = false) :
    merge_yaml_files true ins transformers = (false, none) := by
  have hall : ins.all PyObj.isDict = false := by
    rcases hbad with ⟨content, hc, hbadc⟩
    apply List.all_eq_false.mpr
    exact ⟨content, hc, by simp [hbadc]⟩
  have hflag := merge_yaml_fold_flag transformers ins (true, [])
  simp only [Bool.true_and] at hflag
  simp only [merge_yaml_files, if_true]
  rw [hflag, hall]
  simp

/-- Witness for claim C8 at a concrete input: a single input file whose
top-level YAML value is the string `hello`, with no transformers. -/
theorem C8_merge_yaml_non_dict_fails_witness :
    (∃ content ∈ [PyObj.str "hello"], content.isDict = false) ∧
      merge_yaml_files true [PyObj.str "hello"] (fun _ => none) = (false, none) :=
  ⟨⟨PyObj.str "hello", by simp, by simp [PyObj.isDict]⟩,
    C8_merge_yaml_non_dict_fails [PyObj.str "hello"] (fun _ => none)
      ⟨PyObj.str "hello", by simp, by simp [PyObj.isDict]⟩⟩

/-! ## Configuration preparation (cpp/lib.py `Tool.prepare_config`) -/

/-- The file-system and version-control facts `Tool.prepare_config` branches
on: whether the generated config file is tracked by git
(`is_file_tracked`), whether it exists, whether the project's custom-changes
file exists, and the modification times involved. -/
structure ConfigEnv where
  tracked : Bool
  config_exists : Bool
  custom_exists : Bool
  config_mtime : Int
  custom_mtime : Int
  bbp_mtime : Int

/-- The write effect `Tool.prepare_config` performs on the generated config
file: merge the project config with the custom-changes file into it, copy
the project config over it, or leave it untouched. -/
inductive ConfigAction where
  | merge_custom : ConfigAction
  | copy_bbp : ConfigAction
  | no_action : ConfigAction
deriving DecidableEq

/-- Embedding of `Tool.prepare_config` from `cpp/lib.py` (the same branch
structure as `Tool.setup_config` in `cpp/cmake/cpplib.py`), reduced to the
write effect it performs on the generated config file: the body runs only
when the file is NOT tracked by git OR does not exist; with a custom-changes
file present it rebuilds (merges) when the config file is missing or older
than the newest of its dependencies, and without one it copies the project
config when the config file is missing or older than it. -/
def Tool.prepare_config (env : ConfigEnv) : ConfigAction :=
  if !env.tracked || !env.config_exists then
    if env.custom_exists then
      let build_file :=
        if !env.config_exists then true
        else decide (env.config_mtime < max env.config_mtime env.custom_mtime)
      if build_file then ConfigAction.merge_custom
      else ConfigAction.no_action
    else
      if !env.config_exists || decide (env.config_mtime < env.bbp_mtime) then
        ConfigAction.copy_bbp
      else ConfigAction.no_action
  else ConfigAction.no_action

/-- Counterexample to claim C9 as stated: a config file tracked by git
(`is_file_tracked` returns true) but deleted from the working tree
(`config_f.exists()` false, reachable since `git ls-files --error-unmatch`
consults the index, not the working tree) is rewritten: `prepare_config`
copies the project config over it instead of leaving it untouched. -/
theorem C9_tracked_counterexample :
    Tool.prepare_config
        { tracked := true, config_exists := false, custom_exists := false,
          config_mtime := 0, custom_mtime := 0, bbp_mtime := 0 }
      = ConfigAction.copy_bbp ∧
      ConfigAction.copy_bbp ≠ ConfigAction.no_action := by
  constructor
  · rfl
  · decide

/-- Claim C9 (amended): if the generated configuration file is tracked by
version control AND exists in the working tree, `Tool.prepare_config`
performs no write, merge or copy to it, whatever the custom-changes file or
the modification times are. -/
theorem C9_tracked_config_untouched (env : ConfigEnv)
    (htracked : env.tracked = true) (hexists : env.config_exists = true) :
    Tool.prepare_config env = ConfigAction.no_action := by
  simp [Tool.prepare_config, htracked, hexists]

/-- Witness for the amended claim C9 at a concrete input: a tracked,
existing config file with a newer custom-changes file. -/
theorem C9_tracked_config_untouched_witness :
    ({ tracked := true, config_exists := true, custom_exists := true,
        config_mtime := 0, custom_mtime := 5, bbp_mtime := 9 } : ConfigEnv).tracked = true ∧
      ({ tracked := true, config_exists := true, custom_exists := true,
          config_mtime := 0, custom_mtime := 5, bbp_mtime := 9 } : ConfigEnv).config_exists = true ∧
      Tool.prepare_config
          { tracked := true, config_exists := true, custom_exists := true,
            config_mtime := 0, custom_mtime := 5, bbp_mtime := 9 }
        = ConfigAction.no_action :=
  ⟨rfl, rfl,
    C9_tracked_config_untouched
      { tracked := true, config_exists := true, custom_exists := true,
        config_mtime := 0, custom_mtime := 5, bbp_mtime := 9 } rfl rfl⟩

/-! ## Tool resolution (cpp/lib.py `ExecutableTool.find_tool_in_path`) -/

/-- Python's `<=` on strings: lexicographic comparison of the Unicode code
points of the characters. -/
def pyStrLe : List Char → List Char → Bool
  | [], _ => true
  | _ :: _, [] => false
  | a :: as, b :: bs =>
    if a.toNat < b.toNat then true
    else if b.toNat < a.toNat then false
    else pyStrLe as bs

/-- Stable insertion of a `(path, version)` candidate into a list sorted by
the raw version STRING (`sorted(paths, key=lambda tup: tup[1])` compares the
version strings lexicographically as Python strings): the new element goes
before the first element whose key is at least its own. -/
def insert_by_version (x : String × String) :
    List (String × String) → List (String × String)
  | [] => [x]
  | y :: ys =>
    if pyStrLe x.2.data y.2.data then x :: y :: ys
    else y :: insert_by_version x ys

/-- Python's stable `sorted` by the version-string key, as an insertion
sort. -/
def sorted_by_version : List (String × String) → List (String × String)
  | [] => []
  | x :: xs => insert_by_version x (sorted_by_version xs)

/-- Embedding of `ExecutableTool.find_tool_in_path` from `cpp/lib.py`.
`all_paths` is the list of discovered candidate executables paired with
their detected version strings (`[(p, self.find_version(p)) for p in paths]`,
in discovery order), and `req` embeds the pkg_resources test
`tpl[1] in self.requirement`. Raising `FileNotFoundError` is embedded as
`Except.error`; otherwise the function returns `paths[-1]` of the
filtered-and-sorted candidate list. -/
def find_tool_in_path (req : String → Bool) (all_paths : List (String × String)) :
    Except String (String × String) :=
  if all_paths.isEmpty then Except.error "Could not find tool"
  else
    let paths := all_paths.filter fun tpl => req tpl.2
    let paths := sorted_by_version paths
    match paths.getLast? with
    | none => Except.error "Could not find a version matching the requirement"
    | some best => Except.ok best

/-- Split a version string at the dots, like `str.split(".")`. -/
def splitOnDot : List Char → List (List Char)
  | [] => [[]]
  | '.' :: rest => [] :: splitOnDot rest
  | c :: rest =>
    match splitOnDot rest with
    | [] => [[c]]
    | piece :: pieces => (c :: piece) :: pieces

/-- Read a decimal digit group as a number. -/
def parseNatDigits (l : List Char) : Nat :=
  l.foldl (fun n c => n * 10 + (c.toNat - '0'.toNat)) 0

/-- The numeric components of a dotted version string: `"13.0.0"` becomes
`[13, 0, 0]`. -/
def version_components (s : String) : List Nat :=
  (splitOnDot s.data).map parseNatDigits

/-- Lexicographic comparison of numeric version components: the numeric,
semver-like order on versions. -/
def version_num_lt : List Nat → List Nat → Bool
  | [], [] => false
  | [], _ :: _ => true
  | _ :: _, [] => false
  | a :: as, b :: bs => if a < b then true else if b < a then false else version_num_lt as bs

/-- The Python string order is reflexive. -/
theorem pyStrLe_refl : ∀ a : List Char, pyStrLe a a = true := by
  intro a
  induction a with
  | nil => rfl
  | cons c cs ih => simp [pyStrLe, ih]

/-- The Python string order is total. -/
theorem pyStrLe_total : ∀ a b : List Char,
    pyStrLe a b = true ∨ pyStrLe b a = true := by
  intro a
  induction a with
  | nil =>
    intro b
    left
    rfl
  | cons c cs ih =>
    intro b
    match b with
    | [] => right; rfl
    | d :: ds =>
      by_cases h1 : c.toNat < d.toNat
      · left
        simp [pyStrLe, h1]
      · by_cases h2 : d.toNat < c.toNat
        · right
          simp [pyStrLe, h2]
        · rcases ih ds with h | h
          · left
            simp [pyStrLe, h1, h2, h]
          · right
            simp [pyStrLe, h1, h2, h]

/-- The Python string order is transitive. -/
theorem pyStrLe_trans : ∀ a b c : List Char,
    pyStrLe a b = true → pyStrLe b c = true → pyStrLe a c = true := by
  intro a
  induction a with
  | nil =>
    intro b c _ _
    rfl
  | cons x xs ih =>
    intro b c hab hbc
    match b, c with
    | [], _ => simp [pyStrLe] at hab
    | _ :: _, [] => simp [pyStrLe] at hbc
    | y :: ys, z :: zs =>
      simp only [pyStrLe] at hab hbc ⊢
      by_cases h1 : x.toNat < y.toNat
      · by_cases h2 : y.toNat < z.toNat
        · simp [show x.toNat < z.toNat by omega]
        · by_cases h3 : z.toNat < y.toNat
          · simp [h2, h3] at hbc
          · simp [show x.toNat < z.toNat by omega]
      · by_cases h1' : y.toNat < x.toNat
        · simp [h1, h1'] at hab
        · by_cases h2 : y.toNat < z.toNat
          · simp [show x.toNat < z.toNat by omega]
          · by_cases h3 : z.toNat < y.toNat
            · simp [h2, h3] at hbc
            · have hxz1 : ¬x.toNat < z.toNat := by omega
              have hxz2 : ¬z.toNat < x.toNat := by omega
              simp only [h1, h1', if_false] at hab
              simp only [h2, h3, if_false] at hbc
              simp [hxz1, hxz2, ih ys zs hab hbc]

/-- Inserting never yields the empty list. -/
theorem insert_by_version_ne_nil (x : String × String) :
    ∀ s : List (String × String), insert_by_version x s ≠ [] := by
  intro s
  match s with
  | [] => simp [insert_by_version]
  | y :: ys =>
    simp only [insert_by_version]
    by_cases h : pyStrLe x.2.data y.2.data = true
    · simp [h]
    · simp [h]

/-- Membership after insertion. -/
theorem mem_insert_by_version (x z : String × String) :
    ∀ s : List (String × String),
      z ∈ insert_by_version x s ↔ z = x ∨ z ∈ s := by
  intro s
  induction s with
  | nil => simp [insert_by_version]
  | cons y ys ih =>
    simp only [insert_by_version]
    by_cases h : pyStrLe x.2.data y.2.data = true
    · simp [h, List.mem_cons]
    · simp only [h, Bool.false_eq_true, if_false, List.mem_cons, ih]
      tauto

/-- Inserting into a list whose last element bounds every element from above
(in the Python string order on the version key) yields a list whose last
element bounds the inserted element and every old element from above and is
either the inserted element or the old last element. -/
theorem insert_by_version_getLast_max (x : String × String) :
    ∀ (s : List (String × String)) (b : String × String),
      s.getLast? = some b →
      (∀ y ∈ s, pyStrLe y.2.data b.2.data = true) →
      ∃ c, (insert_by_version x s).getLast? = some c ∧ (c = x ∨ c = b) ∧
        pyStrLe x.2.data c.2.data = true ∧ pyStrLe b.2.data c.2.data = true ∧
        (∀ y ∈ s, pyStrLe y.2.data c.2.data = true) := by
  intro s
  induction s with
  | nil =>
    intro b hb
    simp at hb
  | cons y ys ih =>
    intro b hb hmax
    by_cases h : pyStrLe x.2.data y.2.data = true
    · refine ⟨b, ?_, Or.inr rfl, ?_, pyStrLe_refl _, hmax⟩
      · simp only [insert_by_version, h, if_true]
        rw [List.getLast?_cons_cons]
        exact hb
      · have hyb : pyStrLe y.2.data b.2.data = true := hmax y (List.mem_cons_self y ys)
        exact pyStrLe_trans _ _ _ h hyb
    · have hyx : pyStrLe y.2.data x.2.data = true := by
        rcases pyStrLe_total x.2.data y.2.data with h' | h'
        · exact absurd h' h
        · exact h'
      match ys, hb with
      | [], hb =>
        simp only [List.getLast?_singleton, Option.some.injEq] at hb
        subst hb
        refine ⟨x, ?_, Or.inl rfl, pyStrLe_refl _, hyx, ?_⟩
        · simp [insert_by_version, h]
        · intro z hz
          simp only [List.mem_singleton] at hz
          subst hz
          exact hyx
      | y' :: ys', hb =>
        rw [List.getLast?_cons_cons] at hb
        have hmax' : ∀ z ∈ y' :: ys', pyStrLe z.2.data b.2.data = true := by
          intro z hz
          exact hmax z (List.mem_cons_of_mem y hz)
        obtain ⟨c, hclast, hcor, hxc, hbc, hall⟩ := ih b hb hmax'
        refine ⟨c, ?_, hcor, hxc, hbc, ?_⟩
        · have hstep : insert_by_version x (y :: y' :: ys')
              = y :: insert_by_version x (y' :: ys') := by
            rw [insert_by_version, if_neg h]
          rw [hstep]
          rcases hne : insert_by_version x (y' :: ys') with _ | ⟨w, ws⟩
          · exact absurd hne (insert_by_version_ne_nil x (y' :: ys'))
          · rw [List.getLast?_cons_cons]
            rw [hne] at hclast
            exact hclast
        · intro z hz
          rcases List.mem_cons.mp hz with hz | hz
          · subst hz
            have hyb : pyStrLe z.2.data b.2.data = true :=
              hmax z (List.mem_cons_self z (y' :: ys'))
            exact pyStrLe_trans _ _ _ hyb hbc
          · exact hall z hz

/-- Membership is preserved by the sort. -/
theorem mem_sorted_by_version (z : String × String) :
    ∀ s : List (String × String), z ∈ sorted_by_version s ↔ z ∈ s := by
  intro s
  induction s with
  | nil => simp [sorted_by_version]
  | cons x xs ih =>
    simp only [sorted_by_version, mem_insert_by_version, ih, List.mem_cons]

/-- The last element of the sorted candidate list is a candidate whose
version-string key bounds every candidate's key from above. -/
theorem sorted_by_version_getLast_max :
    ∀ s : List (String × String), s ≠ [] →
      ∃ b, (sorted_by_version s).getLast? = some b ∧ b ∈ s ∧
        ∀ y ∈ s, pyStrLe y.2.data b.2.data = true := by
  intro s
  induction s with
  | nil =>
    intro h
    exact absurd rfl h
  | cons x xs ih =>
    intro _
    match xs, ih with
    | [], _ =>
      refine ⟨x, rfl, List.mem_singleton.mpr rfl, ?_⟩
      intro y hy
      rw [List.mem_singleton.mp hy]
      exact pyStrLe_refl _
    | x' :: xs', ih =>
      obtain ⟨b, hlast, hmem, hmax⟩ := ih (by simp)
      have hmax' : ∀ y ∈ sorted_by_version (x' :: xs'),
          pyStrLe y.2.data b.2.data = true := by
        intro y hy
        exact hmax y ((mem_sorted_by_version y (x' :: xs')).mp hy)
      obtain ⟨c, hclast, hcor, hxc, hbc, hall⟩ :=
        insert_by_version_getLast_max x (sorted_by_version (x' :: xs')) b hlast hmax'
      refine ⟨c, hclast, ?_, ?_⟩
      · rcases hcor with hc | hc
        · rw [hc]
          exact List.mem_cons_self x (x' :: xs')
        · rw [hc]
          exact List.mem_cons_of_mem x hmem
      · intro y hy
        rcases List.mem_cons.mp hy with hy | hy
        · rw [hy]
          exact hxc
        · exact hall y ((mem_sorted_by_version y (x' :: xs')).mpr hy)

/-- Counterexample to claim C7 as stated: with two discovered candidates of
versions `13.0.0` and `9.0.0`, both satisfying the requirement,
`find_tool_in_path` returns the `9.0.0` candidate — `sorted` keys on the raw
version STRING, and `"9.0.0" > "13.0.0"` lexicographically — although
`9.0.0` is strictly below `13.0.0` in the numeric, semver-like order. -/
theorem C7_numeric_highest_counterexample :
    find_tool_in_path (fun _ => true)
        [("/usr/bin/clang-format-13", "13.0.0"), ("/usr/bin/clang-format-9", "9.0.0")]
      = Except.ok ("/usr/bin/clang-format-9", "9.0.0") ∧
      ("/usr/bin/clang-format-13", "13.0.0")
        ∈ [("/usr/bin/clang-format-13", "13.0.0"),
           ("/usr/bin/clang-format-9", "9.0.0")] ∧
      (fun (_ : String) => true) "13.0.0" = true ∧
      version_num_lt (version_components "9.0.0") (version_components "13.0.0")
        = true := by
  refine ⟨rfl, by simp, rfl, by decide⟩

/-- Claim C7 (amended): for every non-empty list of discovered candidates
with their detected version strings, if at least one candidate's version
satisfies the requirement, `find_tool_in_path` returns a satisfying
candidate whose version string is highest among all satisfying candidates
in the LEXICOGRAPHIC order on version strings (Python string comparison of
the sort key), not in the numeric order. -/
theorem C7_highest_by_string_order (req : String → Bool)
    (all_paths : List (String × String))
    (hne : all_paths ≠ [])
    (hsat : ∃ p ∈ all_paths, req p.2 = true) :
    ∃ best, find_tool_in_path req all_paths = Except.ok best ∧
      best ∈ all_paths ∧ req best.2 = true ∧
      ∀ p ∈ all_paths, req p.2 = true → pyStrLe p.2.data best.2.data = true := by
  obtain ⟨p0, hp0, hreq0⟩ := hsat
  have hfmem : p0 ∈ all_paths.filter (fun tpl => req tpl.2) :=
    List.mem_filter.mpr ⟨hp0, hreq0⟩
  have hfne : all_paths.filter (fun tpl => req tpl.2) ≠ [] :=
    List.ne_nil_of_mem hfmem
  obtain ⟨b, hlast, hbmem, hbmax⟩ := sorted_by_version_getLast_max _ hfne
  have hempty : all_paths.isEmpty = false := by
    match all_paths, hne with
    | a :: as, _ => rfl
  refine ⟨b, ?_, ?_, ?_, ?_⟩
  · unfold find_tool_in_path
    rw [hempty]
    simp only [Bool.false_eq_true, if_false]
    rw [hlast]
  · exact (List.mem_filter.mp hbmem).1
  · exact (List.mem_filter.mp hbmem).2
  · intro p hp hreqp
    exact hbmax p (List.mem_filter.mpr ⟨hp, hreqp⟩)

/-- Witness for the amended claim C7 at a concrete input: a single
discovered candidate satisfying the requirement. -/
theorem C7_highest_by_string_order_witness :
    (([("/usr/bin/clang-format", "14.0.6")] : List (String × String)) ≠ [] ∧
      ∃ p ∈ [("/usr/bin/clang-format", "14.0.6")],
        (fun (_ : String) => true) p.2 = true) ∧
      ∃ best, find_tool_in_path (fun _ => true) [("/usr/bin/clang-format", "14.0.6")]
          = Except.ok best ∧
        best ∈ [("/usr/bin/clang-format", "14.0.6")] ∧
        (fun (_ : String) => true) best.2 = true ∧
        ∀ p ∈ [("/usr/bin/clang-format", "14.0.6")],
          (fun (_ : String) => true) p.2 = true →
            pyStrLe p.2.data best.2.data = true :=
  ⟨⟨by simp, by simp⟩,
    C7_highest_by_string_order (fun _ => true)
      [("/usr/bin/clang-format", "14.0.6")] (by simp) (by simp)⟩
